import Mathlib

/-!
Verification of the GMB Lead Prospector core: the markdown table parsers
(`parseLeadsFromMarkdown` in `src/services/geminiService.ts` and in the
snapshot variants `src/unnamed/part_000`, `part_002`, `part_007`), the
quota-error classification and radius enforcement in `part_002`'s
`fetchGmbLeads`, and the UI-level merge in `App.tsx`'s `handleSearch`.

Strings are modelled as `List Char` (JavaScript strings), JavaScript
numbers produced by `parseFloat` as exact decimal pairs `(m, d) : ℤ × ℕ`
denoting the rational `m / 10 ^ d` (the sources only ever parse decimal
literals, divide by 1000, multiply by 1.05, compare, and take ceilings;
an exact-decimal model is faithful to those operations and ignores only
IEEE-754 rounding, which never matters at the magnitudes involved).
-/

/-- JavaScript `s.split(sep)` for a one-character separator: `n` separators
give `n + 1` (possibly empty) fields. -/
def splitOnChar (sep : Char) : List Char → List (List Char)
  | [] => [[]]
  | c :: cs =>
    if c = sep then [] :: splitOnChar sep cs
    else
      match splitOnChar sep cs with
      | [] => [[c]]
      | r :: rs => (c :: r) :: rs

/-- JavaScript `s.trim()`: drop leading and trailing whitespace. -/
def trimList (l : List Char) : List Char :=
  ((l.dropWhile Char.isWhitespace).reverse.dropWhile Char.isWhitespace).reverse

/-- JavaScript `s.toLowerCase()` (ASCII letters, which is all the sources
compare). -/
def lowerList (l : List Char) : List Char :=
  l.map Char.toLower

/-- Number of occurrences of a character, as in `(line.match(/\|/g) || []).length`. -/
def countChar (c : Char) (l : List Char) : ℕ :=
  l.countP (fun x => x = c)

/-- JavaScript `s.includes(pat)`: `pat` occurs contiguously in `s`. -/
def containsStr (pat : List Char) : List Char → Bool
  | [] => pat.isPrefixOf []
  | c :: rest => pat.isPrefixOf (c :: rest) || containsStr pat rest

/-- The cell-cleanup step shared by all parser variants: drop the empty
leading field of a row starting with `|` and the empty trailing field of a
row ending with `|`.  (`part_000`/`part_002` write it as
`.filter((p, i, arr) => !(i === 0 && p === '') && !(i === arr.length - 1 && p === ''))`,
`geminiService.ts` as a conditional `shift()` and `pop()`; both remove
exactly the first element when empty and the last element when empty.) -/
def dropBoundaryBlanks (l : List (List Char)) : List (List Char) :=
  let l1 := match l with
    | [] :: rest => rest
    | other => other
  match l1.reverse with
  | [] :: rest => rest.reverse
  | _ => l1

/-- The cell pipeline every parser variant applies to a candidate row:
`line.split('|').map(p => p.trim())` followed by removal of the boundary
blanks. -/
def partsOfRow (line : List Char) : List (List Char) :=
  dropBoundaryBlanks ((splitOnChar '|' line).map trimList)

/-- JavaScript `s || fallback` on strings: the fallback replaces the empty
string (and a missing cell, which we encode as `[]`). -/
def jsOr (s fallback : List Char) : List Char :=
  if s.isEmpty then fallback else s

/-- JavaScript `cell.replace(/[^0-9]/g, '')`: keep only the digits. -/
def digitsOnly (l : List Char) : List Char :=
  l.filter Char.isDigit

/-- Numeric value of a digit string (most significant digit first). -/
def natOfDigits (l : List Char) : ℕ :=
  l.foldl (fun a c => 10 * a + (c.toNat - 48)) 0

/-- JavaScript `parseInt` applied to an all-digit string (which is the only
way the sources call it, after `replace(/[^0-9]/g, '')`): `NaN` — modelled
as `none` — exactly on the empty string. -/
def jsParseInt (l : List Char) : Option ℕ :=
  if l.isEmpty then none else some (natOfDigits l)

/-- JavaScript `parseInt(...) || fallback`: the fallback replaces both `NaN`
and `0`. -/
def jsOrNat (o : Option ℕ) (fallback : ℕ) : ℕ :=
  match o with
  | none => fallback
  | some v => if v = 0 then fallback else v

/-- Sign handling of a JavaScript numeric literal: an optional leading
`+`/`-`. -/
def splitSign : List Char → ℤ × List Char
  | '-' :: r => (-1, r)
  | '+' :: r => (1, r)
  | l => (1, l)

/-- Application of a decimal exponent to an exact decimal `m / 10 ^ d`. -/
def applyExp (m : ℤ) (d : ℕ) (e : ℤ) : ℤ × ℕ :=
  match e with
  | Int.ofNat n => if d ≤ n then (m * 10 ^ (n - d), 0) else (m, d - n)
  | Int.negSucc n => (m, d + (n + 1))

/-- Exponent part (`e`/`E`, optional sign, digits) of a JavaScript float
literal; an unparseable exponent is ignored, as `parseFloat` does. -/
def parseExpAux (m : ℤ) (d : ℕ) (rest : List Char) : ℤ × ℕ :=
  let sr := splitSign rest
  let ed := sr.2.takeWhile Char.isDigit
  if ed.isEmpty then (m, d)
  else applyExp m d (sr.1 * (natOfDigits ed : ℤ))

/-- Dispatch on the `e`/`E` marker of an exponent part. -/
def parseExp (m : ℤ) (d : ℕ) : List Char → ℤ × ℕ
  | 'e' :: rest => parseExpAux m d rest
  | 'E' :: rest => parseExpAux m d rest
  | _ => (m, d)

/-- JavaScript `parseFloat` on a finite decimal literal, as an exact decimal
pair `(m, d)` denoting `m / 10 ^ d`; `NaN` is `none`.  `parseFloat` takes
the longest prefix (after optional whitespace and sign) of the form
`digits [. digits] [e/E [sign] digits]` and is `NaN` when no digit occurs
before the exponent part.  (The special literal `Infinity`, which none of
the sources' inputs use, is not modelled.) -/
def jsParseFloat (s : List Char) : Option (ℤ × ℕ) :=
  let t := s.dropWhile Char.isWhitespace
  let st := splitSign t
  let t1 := st.2
  let ip := t1.takeWhile Char.isDigit
  let r1 := t1.drop ip.length
  let fp := match r1 with
    | '.' :: r => r.takeWhile Char.isDigit
    | _ => []
  let r2 := match r1 with
    | '.' :: r => r.drop (r.takeWhile Char.isDigit).length
    | _ => r1
  if ip.isEmpty && fp.isEmpty then none
  else some (parseExp (st.1 * (natOfDigits (ip ++ fp) : ℤ)) fp.length r2)

/-- Rational value of an exact decimal pair. -/
def decVal (p : ℤ × ℕ) : ℚ :=
  (p.1 : ℚ) / (10 : ℚ) ^ p.2

/-- JavaScript `Math.ceil` on an exact decimal pair, computed with integer
division (so that it reduces in the kernel); `ceilDec_eq_ceil` below proves
it equal to the genuine ceiling `⌈decVal p⌉`. -/
def ceilDec (p : ℤ × ℕ) : ℤ :=
  -((-p.1) / ((10 : ℤ) ^ p.2))

/-- JavaScript `cell.replace(/\*\*/g, '')`: remove the non-overlapping
occurrences of `**`, left to right. -/
def stripDoubleStars : List Char → List Char
  | [] => []
  | '*' :: '*' :: rest => stripDoubleStars rest
  | c :: rest => c :: stripDoubleStars rest

/-- The backquote character (code point 96). -/
def backquoteChar : Char := Char.ofNat 96

/-- JavaScript removal of every backquote, `cell.replace` with the global
one-character code-marker pattern. -/
def stripBackquotes (l : List Char) : List Char :=
  l.filter (fun c => c ≠ backquoteChar)

/-- JavaScript `parseFloat(cell) || 0` as used for the `rating` field: `0`
replaces both `NaN` and an actual zero, so the result is the exact decimal
value with `(0, 0)` in both fallback cases. -/
def ratingOf (cell : List Char) : ℤ × ℕ :=
  match jsParseFloat cell with
  | none => (0, 0)
  | some p => if p.1 = 0 then (0, 0) else p

/-- One extracted business record (`Lead` in `src/types.ts`).  `rating` is
the exact decimal representation of the parsed JavaScript number. -/
structure Lead where
  id : String
  businessName : String
  phoneNumber : String
  rank : ℕ
  website : String
  locationLink : String
  rating : ℤ × ℕ
  distance : String
  keyword : String
deriving DecidableEq

/-- Erasure of the only nondeterministic field (`id` is built from the
clock and `Math.random()`). -/
def stripId (l : Lead) : Lead :=
  { l with id := "" }

/-- Stable insertion into a list sorted ascending by `rank`; equal ranks
keep their order, as JavaScript's stable `Array.sort` does. -/
def insertByRank (x : Lead) : List Lead → List Lead
  | [] => [x]
  | y :: ys => if y.rank ≤ x.rank then y :: insertByRank x ys else x :: y :: ys

/-- JavaScript `leads.sort((a, b) => a.rank - b.rank)`: ascending by `rank`. -/
def sortByRank (l : List Lead) : List Lead :=
  l.foldr insertByRank []

namespace GeminiService

/-- Processing of one candidate data line in
`src/services/geminiService.ts` `parseLeadsFromMarkdown` (lines 83–111):
trim, require a pipe, split on pipes, trim the cells, drop boundary blanks,
require at least 5 cells, and skip header leftovers; `g` supplies the
time-and-randomness part of the generated `id`. -/
def rowToLead (g : ℕ → String) (keyword : String) (index : ℕ)
    (line : List Char) : Option Lead :=
  let cleanLine := trimList line
  if !containsStr "|".data cleanLine then none
  else
    let parts := partsOfRow cleanLine
    if 5 ≤ parts.length then
      let name := parts.getD 0 []
      if containsStr "name".data (lowerList name) || containsStr "---".data name
          || name.isEmpty then none
      else some
        { id := g index
          businessName := String.mk name
          phoneNumber := String.mk (jsOr (parts.getD 1 []) "N/A".data)
          rank := jsOrNat (jsParseInt (digitsOnly (parts.getD 2 []))) (index + 6)
          website := String.mk (jsOr (parts.getD 3 []) "None".data)
          locationLink := String.mk (jsOr (parts.getD 4 []) "#".data)
          rating := ratingOf (parts.getD 5 [])
          distance := String.mk (jsOr (parts.getD 6 []) "N/A".data)
          keyword := keyword }
    else none

/-- `parseLeadsFromMarkdown` of `src/services/geminiService.ts`
(lines 73–114): locate the header separator line (a line containing both a
pipe and a dash run), return `[]` when absent, and parse every subsequent
line. -/
def parseLeadsFromMarkdown (g : ℕ → String) (md keyword : String) : List Lead :=
  let lines := splitOnChar '\n' md.data
  match lines.findIdx? (fun l => containsStr "|".data l && containsStr "---".data l) with
  | none => []
  | some i => ((lines.drop (i + 1)).enum).filterMap (fun p => rowToLead g keyword p.1 p.2)

end GeminiService

namespace Part000

/-- Row handling of `src/unnamed/part_000` `parseLeadsFromMarkdown`
(lines 75–99): at least 5 cells, the business-name cell cleaned of `**` and
backquote markers, rows with a cleaned name shorter than 2 characters
dropped, rank fallback `index + 1`, distance fallback `"0 km"`. -/
def rowToLead (g : ℕ → String) (keyword : String) (index : ℕ)
    (line : List Char) : Option Lead :=
  let parts := partsOfRow line
  if 5 ≤ parts.length then
    let cleanName := stripBackquotes (stripDoubleStars (parts.getD 0 []))
    if cleanName.length < 2 then none
    else some
      { id := g index
        businessName := String.mk cleanName
        phoneNumber := String.mk (jsOr (parts.getD 1 []) "N/A".data)
        rank := jsOrNat (jsParseInt (digitsOnly (parts.getD 2 []))) (index + 1)
        website := String.mk (jsOr (parts.getD 3 []) "None".data)
        locationLink := String.mk (jsOr (parts.getD 4 []) "#".data)
        rating := ratingOf (parts.getD 5 [])
        distance := String.mk (jsOr (parts.getD 6 []) "0 km".data)
        keyword := keyword }
  else none

/-- `parseLeadsFromMarkdown` of `src/unnamed/part_000` (lines 65–101): scan
every line, keep the lines with at least 5 pipes that are neither separator
lines nor repeats of the header label, parse them, and sort ascending by
rank. -/
def parseLeadsFromMarkdown (g : ℕ → String) (md keyword : String) : List Lead :=
  if md = "" then []
  else
    let lines := splitOnChar '\n' md.data
    let dataLines := lines.filter (fun line =>
      5 ≤ countChar '|' line && !containsStr "---".data line
        && !containsStr "business name".data (lowerList line))
    sortByRank ((dataLines.enum).filterMap (fun p => rowToLead g keyword p.1 p.2))

end Part000

namespace Part002

/-- Row handling of the second `parseLeadsFromMarkdown` in
`src/unnamed/part_002` (lines 237–261): at least 6 cells, the name cell
cleaned of `**` and backquote markers and then trimmed, empty cleaned names
dropped, rank fallback `index + 6`. -/
def rowToLead (g : ℕ → String) (keyword : String) (index : ℕ)
    (line : List Char) : Option Lead :=
  let parts := partsOfRow line
  if 6 ≤ parts.length then
    let cleanName := trimList (stripBackquotes (stripDoubleStars (parts.getD 0 [])))
    if cleanName.isEmpty then none
    else some
      { id := g index
        businessName := String.mk cleanName
        phoneNumber := String.mk (jsOr (parts.getD 1 []) "N/A".data)
        rank := jsOrNat (jsParseInt (digitsOnly (parts.getD 2 []))) (index + 6)
        website := String.mk (jsOr (parts.getD 3 []) "None".data)
        locationLink := String.mk (jsOr (parts.getD 4 []) "#".data)
        rating := ratingOf (parts.getD 5 [])
        distance := String.mk (jsOr (parts.getD 6 []) "N/A".data)
        keyword := keyword }
  else none

/-- The second `parseLeadsFromMarkdown` of `src/unnamed/part_002`
(lines 227–264): keep the lines with at least 6 pipes that are neither
separator lines nor header repeats, parse them, and sort ascending by rank. -/
def parseLeadsFromMarkdown (g : ℕ → String) (md keyword : String) : List Lead :=
  if md = "" then []
  else
    let lines := splitOnChar '\n' md.data
    let dataLines := lines.filter (fun line =>
      6 ≤ countChar '|' line && !containsStr "---".data line
        && !containsStr "business name".data (lowerList line))
    sortByRank ((dataLines.enum).filterMap (fun p => rowToLead g keyword p.1 p.2))

end Part002

namespace Part007

/-- Row handling of `src/unnamed/part_007` `parseLeadsFromMarkdown`
(lines 113–151): same shape as the geminiService parser but with a richer
header check and — crucially — the rank fallback `parseInt(...) || 0`. -/
def rowToLead (g : ℕ → String) (keyword : String) (index : ℕ)
    (line : List Char) : Option Lead :=
  let cleanLine := trimList line
  if !containsStr "|".data cleanLine then none
  else
    let parts := partsOfRow cleanLine
    if 5 ≤ parts.length then
      let name := parts.getD 0 []
      if containsStr "business name".data (lowerList name)
          || containsStr "---".data name || name.isEmpty
          || containsStr "header".data (lowerList name) then none
      else some
        { id := g index
          businessName := String.mk name
          phoneNumber := String.mk (jsOr (parts.getD 1 []) "N/A".data)
          rank := jsOrNat (jsParseInt (digitsOnly (parts.getD 2 []))) 0
          website := String.mk (jsOr (parts.getD 3 []) "None".data)
          locationLink := String.mk (jsOr (parts.getD 4 []) "#".data)
          rating := ratingOf (parts.getD 5 [])
          distance := String.mk (jsOr (parts.getD 6 []) "N/A".data)
          keyword := keyword }
    else none

/-- `parseLeadsFromMarkdown` of `src/unnamed/part_007` (lines 98–155):
start after the separator line when present; otherwise require some line
with at least 6 pipes and start at the top; sort ascending by rank. -/
def parseLeadsFromMarkdown (g : ℕ → String) (md keyword : String) : List Lead :=
  let lines := splitOnChar '\n' md.data
  match lines.findIdx? (fun l => containsStr "|".data l && containsStr "---".data l) with
  | some i =>
    sortByRank (((lines.drop (i + 1)).enum).filterMap (fun p => rowToLead g keyword p.1 p.2))
  | none =>
    match lines.findIdx? (fun l => 6 ≤ countChar '|' l) with
    | none => []
    | some _ =>
      sortByRank ((lines.enum).filterMap (fun p => rowToLead g keyword p.1 p.2))

end Part007

/-- The thrown error of `part_002`'s `fetchGmbLeads` catch block: either a
`QuotaError` carrying `retryAfter` (in seconds; `none` models `NaN`) or a
plain `Error` with a message. -/
inductive ThrownError where
  | quotaErr (message : String) (retryAfter : Option ℤ)
  | genericErr (message : String)
deriving DecidableEq

/-- Digit-or-dot character class `[\d.]` of the retry-after pattern. -/
def isDigitOrDot (c : Char) : Bool :=
  c.isDigit || c = '.'

/-- Match attempt of the regular expression `retry in ([\d.]+)s` anchored at
the start of `l`: the literal `retry in `, then a nonempty greedy run of
digits and dots, then `s`.  (Backtracking cannot help: a shortened run
would have to be followed by one of its own digit-or-dot characters,
never `s`.) -/
def retryAt (l : List Char) : Option (List Char) :=
  if "retry in ".data.isPrefixOf l then
    let rest := l.drop 9
    let run := rest.takeWhile isDigitOrDot
    if !run.isEmpty && "s".data.isPrefixOf (rest.drop run.length) then some run
    else none
  else none

/-- First (leftmost) capture of `errorMsg.match(/retry in ([\d.]+)s/)`. -/
def findRetryCapture : List Char → Option (List Char)
  | [] => none
  | c :: cs =>
    match retryAt (c :: cs) with
    | some r => some r
    | none => findRetryCapture cs

/-- The quota indicator of `part_002`'s catch block (line 213):
`errorMsg.includes("429") || errorMsg.includes("quota") || errorMsg.includes("RESOURCE_EXHAUSTED")`. -/
def quotaLike (s : String) : Bool :=
  containsStr "429".data s.data || containsStr "quota".data s.data
    || containsStr "RESOURCE_EXHAUSTED".data s.data

/-- Lines 214–215 of `src/unnamed/part_002`:
`waitMatch ? Math.ceil(parseFloat(waitMatch[1])) : 60`; `none` models the
`NaN` produced when the captured run has no digit. -/
def retryWaitSeconds (errorMsg : String) : Option ℤ :=
  match findRetryCapture errorMsg.data with
  | some cap => (jsParseFloat cap).map ceilDec
  | none => some 60

/-- Error classification of `part_002`'s `fetchGmbLeads` catch block
(lines 208–224): quota errors first, then key errors, then passthrough;
the message defaults to `"Unknown error"` as in `error.message || "Unknown error"`. -/
def handleFetchError (message : String) : ThrownError :=
  let errorMsg := if message = "" then "Unknown error" else message
  if quotaLike errorMsg then
    ThrownError.quotaErr "System cooling down... please wait." (retryWaitSeconds errorMsg)
  else if containsStr "Requested entity was not found".data errorMsg.data
      || containsStr "API Key".data errorMsg.data then
    ThrownError.genericErr "API Key issue detected. Please re-authenticate the scanner."
  else ThrownError.genericErr errorMsg

/-- The cleanup pipeline of `parseDistanceValue` in `src/unnamed/part_002`
(line 123): `distStr.toLowerCase().replace(/,/g, '').trim()`. -/
def cleanDistStr (distStr : String) : List Char :=
  trimList ((lowerList distStr.data).filter (fun c => c ≠ ','))

/-- `parseDistanceValue` of `src/unnamed/part_002` (lines 121–129):
canonical distance in kilometers — `NaN` and the empty string give `0`, a
`km` suffix is taken as-is, an `m` suffix divides by 1000, anything else is
taken as-is. -/
def parseDistanceValue (distStr : String) : ℚ :=
  if distStr = "" then 0
  else
    let clean := cleanDistStr distStr
    match jsParseFloat clean with
    | none => 0
    | some p =>
      if "km".data.isSuffixOf clean then decVal p
      else if "m".data.isSuffixOf clean then decVal p / 1000
      else decVal p

/-- The radius backstop of `part_002`'s `fetchGmbLeads` (lines 193–197):
keep the leads whose canonical distance is at most `1.05 × radius`. -/
def enforceRadius (radius : ℚ) (allLeads : List Lead) : List Lead :=
  allLeads.filter (fun lead => decide (parseDistanceValue lead.distance ≤ radius * 1.05))

/-- Case-insensitive business name, the dedup key of `App.tsx`'s merge. -/
def lowerName (l : Lead) : String :=
  String.mk (lowerList l.businessName.data)

/-- The UI merge of `App.tsx` `handleSearch` (lines 115–119): drop incoming
leads whose lowercased business name is already accumulated, append the
rest, and sort ascending by rank. -/
def mergeLeads (prev newLeads : List Lead) : List Lead :=
  let existingNames := prev.map lowerName
  let uniqueNew := newLeads.filter (fun l => !decide (lowerName l ∈ existingNames))
  sortByRank (prev ++ uniqueNew)

/-- Occurrence count of a (lowercased) business name in a lead list. -/
def countByLowerName (nm : String) (l : List Lead) : ℕ :=
  l.countP (fun x => lowerName x = nm)

/-- Concrete lead constructor for the closed instances below. -/
def sampleLead (nm : String) (r : ℕ) (dist : String) : Lead :=
  { id := ""
    businessName := nm
    phoneNumber := "N/A"
    rank := r
    website := "None"
    locationLink := "#"
    rating := (0, 0)
    distance := dist
    keyword := "plumbers" }

/-- The Lead that `geminiService.ts` extracts from the concrete one-row
table used by several closed instances below. -/
def gsAcmeLead : Lead :=
  { id := ""
    businessName := "Acme"
    phoneNumber := "555"
    rank := 7
    website := "site"
    locationLink := "maps"
    rating := (0, 0)
    distance := "N/A"
    keyword := "kw" }

/-- Ascending-rank ordering of the JavaScript comparator `(a, b) => a.rank - b.rank`. -/
def rankLE (a b : Lead) : Prop :=
  a.rank ≤ b.rank

/-- First-cell shapes the specification says are never emitted as a Lead:
empty, the header label (up to case), or a dash-separator artifact. -/
def badFirstCell (cell : List Char) : Prop :=
  cell = [] ∨ lowerList cell = "business name".data ∨ containsStr "---".data cell = true

instance decBadFirstCell (cell : List Char) : Decidable (badFirstCell cell) :=
  inferInstanceAs (Decidable
    (cell = [] ∨ lowerList cell = "business name".data ∨ containsStr "---".data cell = true))

/-! ### Basic lemmas about the string primitives -/

theorem containsStr_iff (pat l : List Char) : containsStr pat l = true ↔ pat <:+: l := by
  induction l with
  | nil =>
    simp [containsStr, List.isPrefixOf_iff_prefix]
  | cons c rest ih =>
    simp only [containsStr, Bool.or_eq_true, List.isPrefixOf_iff_prefix, ih]
    exact (List.infix_cons_iff).symm

theorem infix_cons_self (c : Char) (l : List Char) : l <:+: c :: l :=
  ⟨[c], [], by simp⟩

theorem splitOnChar_head_prefix (sep : Char) (l : List Char) :
    (splitOnChar sep l).headI <+: l := by
  induction l with
  | nil => simp [splitOnChar]
  | cons c cs ih =>
    by_cases hc : c = sep
    · simp [splitOnChar, if_pos hc]
    · simp only [splitOnChar, if_neg hc]
      cases hs : splitOnChar sep cs with
      | nil => exact ⟨cs, rfl⟩
      | cons r rs =>
        rw [hs] at ih
        simp only [List.headI] at ih ⊢
        obtain ⟨t, rfl⟩ := ih
        exact ⟨t, rfl⟩

theorem mem_splitOnChar_within {sep : Char} {l s : List Char}
    (h : s ∈ splitOnChar sep l) : s <:+: l := by
  induction l generalizing s with
  | nil =>
    simp only [splitOnChar, List.mem_singleton] at h
    simp [h]
  | cons c cs ih =>
    by_cases hc : c = sep
    · simp only [splitOnChar, if_pos hc, List.mem_cons] at h
      rcases h with h | h
      · simp [h]
      · exact (ih h).trans (infix_cons_self c cs)
    · simp only [splitOnChar, if_neg hc] at h
      cases hs : splitOnChar sep cs with
      | nil =>
        rw [hs] at h
        simp only [List.mem_singleton] at h
        subst h
        exact ⟨[], cs, by simp⟩
      | cons r rs =>
        rw [hs] at h
        simp only [List.mem_cons] at h
        rcases h with h | h
        · subst h
          have hr : r <+: cs := by
            have := splitOnChar_head_prefix sep cs
            rwa [hs] at this
          obtain ⟨t, rfl⟩ := hr
          exact ⟨[], t, by simp⟩
        · exact (ih (by rw [hs]; exact List.mem_cons_of_mem _ h)).trans (infix_cons_self c cs)

theorem trimList_within (l : List Char) : trimList l <:+: l := by
  obtain ⟨s, hs⟩ : (l.dropWhile Char.isWhitespace) <:+ l := List.dropWhile_suffix _
  obtain ⟨t, ht⟩ : ((l.dropWhile Char.isWhitespace).reverse.dropWhile Char.isWhitespace) <:+
      (l.dropWhile Char.isWhitespace).reverse := List.dropWhile_suffix _
  refine ⟨s, t.reverse, ?_⟩
  have h2 : trimList l ++ t.reverse = l.dropWhile Char.isWhitespace := by
    have := congrArg List.reverse ht
    simp only [List.reverse_append, List.reverse_reverse] at this
    exact this
  rw [List.append_assoc, h2, hs]

theorem infix_lowerList {l₁ l₂ : List Char} (h : l₁ <:+: l₂) :
    lowerList l₁ <:+: lowerList l₂ := by
  obtain ⟨s, t, rfl⟩ := h
  exact ⟨lowerList s, lowerList t, by simp [lowerList]⟩

theorem mem_of_within {c : Char} {l₁ l₂ : List Char} (h : l₁ <:+: l₂) (hc : c ∈ l₁) :
    c ∈ l₂ := by
  obtain ⟨s, t, rfl⟩ := h
  simp [hc]

theorem splitOnChar_single {sep : Char} {l : List Char} (h : sep ∉ l) :
    splitOnChar sep l = [l] := by
  induction l with
  | nil => rfl
  | cons c cs ih =>
    have hc : c ≠ sep := fun he => h (he ▸ List.mem_cons_self c cs)
    have hcs : sep ∉ cs := fun hm => h (List.mem_cons_of_mem _ hm)
    simp only [splitOnChar, if_neg hc, ih hcs]

theorem splitOnChar_no_sep_append {sep : Char} {a : List Char} (b : List Char)
    (h : sep ∉ a) : splitOnChar sep (a ++ sep :: b) = a :: splitOnChar sep b := by
  induction a with
  | nil => simp [splitOnChar]
  | cons c cs ih =>
    have hc : c ≠ sep := fun he => h (he ▸ List.mem_cons_self c cs)
    have hcs : sep ∉ cs := fun hm => h (List.mem_cons_of_mem _ hm)
    simp only [List.cons_append, splitOnChar, if_neg hc, List.append_eq, ih hcs]

theorem mem_dropHead {l : List (List Char)} {x : List Char}
    (h : x ∈ (match l with | [] :: rest => rest | other => other)) : x ∈ l := by
  rcases l with _ | ⟨a, rest⟩
  · exact h
  · rcases a with _ | ⟨c, cs⟩
    · exact List.mem_cons_of_mem _ h
    · exact h

theorem mem_dropLastMatch {l1 : List (List Char)} {x : List Char}
    (h : x ∈ (match l1.reverse with | [] :: rest => rest.reverse | _ => l1)) : x ∈ l1 := by
  rcases hr : l1.reverse with _ | ⟨a, rest⟩
  · rw [hr] at h
    exact h
  · rw [hr] at h
    rcases a with _ | ⟨c, cs⟩
    · have h2 : x ∈ l1.reverse := by rw [hr]; exact List.mem_cons_of_mem _ (by simpa using h)
      simpa using h2
    · exact h

theorem mem_dropBoundaryBlanks {l : List (List Char)} {x : List Char}
    (h : x ∈ dropBoundaryBlanks l) : x ∈ l := by
  unfold dropBoundaryBlanks at h
  simp only [] at h
  exact mem_dropHead (mem_dropLastMatch h)

theorem getD_mem_of_ne_nil {l : List (List Char)} (h : l ≠ []) : l.getD 0 [] ∈ l := by
  rcases l with _ | ⟨a, rest⟩
  · exact absurd rfl h
  · simp [List.getD]

theorem firstCell_within {line : List Char} (h : partsOfRow line ≠ []) :
    (partsOfRow line).getD 0 [] <:+: line := by
  have hmem : (partsOfRow line).getD 0 [] ∈ partsOfRow line := getD_mem_of_ne_nil h
  have h2 : (partsOfRow line).getD 0 [] ∈ (splitOnChar '|' line).map trimList :=
    mem_dropBoundaryBlanks hmem
  obtain ⟨seg, hseg, heq⟩ := List.mem_map.1 h2
  rw [← heq]
  exact (trimList_within seg).trans (mem_splitOnChar_within hseg)

theorem singleton_infix_iff {c : Char} {l : List Char} : [c] <:+: l ↔ c ∈ l := by
  constructor
  · intro h
    exact mem_of_within h (List.mem_singleton_self c)
  · intro h
    obtain ⟨s, t, rfl⟩ := List.append_of_mem h
    exact ⟨s, t, by simp⟩

theorem countChar_eq_zero {c : Char} {l : List Char} (h : c ∉ l) : countChar c l = 0 := by
  unfold countChar
  rw [List.countP_eq_zero]
  intro a ha
  simp only [decide_eq_true_eq]
  rintro rfl
  exact h ha

/-! ### Lemmas about the rank sort -/

theorem mem_insertByRank {x y : Lead} {l : List Lead} :
    y ∈ insertByRank x l ↔ y = x ∨ y ∈ l := by
  induction l with
  | nil => simp [insertByRank]
  | cons a as ih =>
    by_cases h : a.rank ≤ x.rank
    · simp only [insertByRank, if_pos h, List.mem_cons, ih]
      tauto
    · simp only [insertByRank, if_neg h, List.mem_cons]

theorem mem_sortByRank {y : Lead} {l : List Lead} : y ∈ sortByRank l ↔ y ∈ l := by
  induction l with
  | nil => simp [sortByRank]
  | cons a as ih =>
    show y ∈ insertByRank a (sortByRank as) ↔ _
    rw [mem_insertByRank]
    simp [ih]

theorem sorted_insertByRank (x : Lead) {l : List Lead}
    (h : List.Sorted rankLE l) : List.Sorted rankLE (insertByRank x l) := by
  induction l with
  | nil => simp [insertByRank]
  | cons a as ih =>
    rw [List.sorted_cons] at h
    by_cases hr : a.rank ≤ x.rank
    · rw [insertByRank, if_pos hr, List.sorted_cons]
      refine ⟨?_, ih h.2⟩
      intro b hb
      rcases mem_insertByRank.1 hb with rfl | hb
      · exact hr
      · exact h.1 b hb
    · rw [insertByRank, if_neg hr, List.sorted_cons]
      refine ⟨?_, List.sorted_cons.2 h⟩
      intro b hb
      rcases List.mem_cons.1 hb with rfl | hb
      · exact le_of_not_le hr
      · exact le_trans (le_of_not_le hr) (h.1 b hb)

theorem sorted_sortByRank (l : List Lead) : List.Sorted rankLE (sortByRank l) := by
  induction l with
  | nil => simp [sortByRank]
  | cons a as ih => exact sorted_insertByRank a ih

theorem countP_insertByRank (p : Lead → Bool) (x : Lead) (l : List Lead) :
    (insertByRank x l).countP p = (x :: l).countP p := by
  induction l with
  | nil => rfl
  | cons a as ih =>
    by_cases hr : a.rank ≤ x.rank
    · rw [insertByRank, if_pos hr, List.countP_cons, ih, List.countP_cons, List.countP_cons,
        List.countP_cons]
      omega
    · rw [insertByRank, if_neg hr]

theorem countP_sortByRank (p : Lead → Bool) (l : List Lead) :
    (sortByRank l).countP p = l.countP p := by
  induction l with
  | nil => rfl
  | cons a as ih =>
    show (insertByRank a (sortByRank as)).countP p = _
    rw [countP_insertByRank, List.countP_cons, ih, List.countP_cons]

/-! ### The ceiling computation -/

theorem ceilDec_eq_ceil (p : ℤ × ℕ) : ceilDec p = ⌈decVal p⌉ := by
  obtain ⟨m, d⟩ := p
  have h2 : -((m : ℚ) / (10 : ℚ) ^ d) = ((-m : ℤ) : ℚ) / (((10 ^ d : ℕ) : ℤ) : ℚ) := by
    push_cast
    ring
  have h3 : ⌈(m : ℚ) / (10 : ℚ) ^ d⌉ = -⌊-((m : ℚ) / (10 : ℚ) ^ d)⌋ := by
    rw [Int.floor_neg, neg_neg]
  show -((-m) / ((10 : ℤ) ^ d)) = ⌈decVal (m, d)⌉
  rw [decVal, h3, h2]
  rw [show (((10 ^ d : ℕ) : ℤ) : ℚ) = (((10 ^ d : ℕ) : ℚ)) by push_cast; ring]
  rw [Rat.floor_intCast_div_natCast]
  push_cast
  ring

/-! ### Row-level facts shared by several claims -/

theorem jsOrNat_pos (o : Option ℕ) {k : ℕ} (hk : 0 < k) : 0 < jsOrNat o k := by
  rcases o with _ | v
  · exact hk
  · by_cases h : v = 0
    · simpa [jsOrNat, h] using hk
    · simpa [jsOrNat, h] using Nat.pos_of_ne_zero h

theorem GS_rank_pos {g : ℕ → String} {kw : String} {i : ℕ} {line : List Char} {l : Lead}
    (h : GeminiService.rowToLead g kw i line = some l) : 0 < l.rank := by
  unfold GeminiService.rowToLead at h
  simp only [] at h
  split at h
  · exact absurd h (by simp)
  · split at h
    · split at h
      · exact absurd h (by simp)
      · cases h
        exact jsOrNat_pos _ (by omega)
    · exact absurd h (by simp)

theorem P0_rank_pos {g : ℕ → String} {kw : String} {i : ℕ} {line : List Char} {l : Lead}
    (h : Part000.rowToLead g kw i line = some l) : 0 < l.rank := by
  unfold Part000.rowToLead at h
  simp only [] at h
  split at h
  · split at h
    · exact absurd h (by simp)
    · cases h
      exact jsOrNat_pos _ (by omega)
  · exact absurd h (by simp)

theorem P2_rank_pos {g : ℕ → String} {kw : String} {i : ℕ} {line : List Char} {l : Lead}
    (h : Part002.rowToLead g kw i line = some l) : 0 < l.rank := by
  unfold Part002.rowToLead at h
  simp only [] at h
  split at h
  · split at h
    · exact absurd h (by simp)
    · cases h
      exact jsOrNat_pos _ (by omega)
  · exact absurd h (by simp)

theorem GS_rowToLead_stripId (g₁ g₂ : ℕ → String) (kw : String) (i : ℕ) (line : List Char) :
    (GeminiService.rowToLead g₁ kw i line).map stripId
      = (GeminiService.rowToLead g₂ kw i line).map stripId := by
  unfold GeminiService.rowToLead
  simp only []
  split
  · rfl
  · split
    · split
      · rfl
      · rfl
    · rfl

theorem GS_parse_stripId (g₁ g₂ : ℕ → String) (md kw : String) :
    (GeminiService.parseLeadsFromMarkdown g₁ md kw).map stripId
      = (GeminiService.parseLeadsFromMarkdown g₂ md kw).map stripId := by
  unfold GeminiService.parseLeadsFromMarkdown
  simp only []
  split
  · rfl
  · rw [List.map_filterMap, List.map_filterMap]
    apply List.filterMap_congr
    intro p _
    exact GS_rowToLead_stripId g₁ g₂ kw p.1 p.2

/-! ### The claims -/

/-- C7: parsing is deterministic apart from the `id` field — two runs of the
`geminiService.ts` parser on the same text and keyword, with different
time/randomness id generators, produce lists of the same length that agree
on every field except `id`, in particular on every rank. -/
theorem parse_deterministic_up_to_id (g₁ g₂ : ℕ → String) (md kw : String) :
    (GeminiService.parseLeadsFromMarkdown g₁ md kw).length
      = (GeminiService.parseLeadsFromMarkdown g₂ md kw).length
    ∧ (GeminiService.parseLeadsFromMarkdown g₁ md kw).map stripId
      = (GeminiService.parseLeadsFromMarkdown g₂ md kw).map stripId
    ∧ (GeminiService.parseLeadsFromMarkdown g₁ md kw).map Lead.rank
      = (GeminiService.parseLeadsFromMarkdown g₂ md kw).map Lead.rank := by
  have h := GS_parse_stripId g₁ g₂ md kw
  refine ⟨?_, h, ?_⟩
  · have h2 := congrArg List.length h
    simpa using h2
  · have hmap : ∀ (xs : List Lead), (xs.map stripId).map Lead.rank = xs.map Lead.rank := by
      intro xs
      rw [List.map_map]
      rfl
    rw [← hmap, h, hmap]

/-- C8: in the sorting variants (`part_002` and `part_000`), the list of
Leads the parser returns is sorted ascending by rank. -/
theorem parse_sorted_by_rank (g : ℕ → String) (md kw : String) :
    List.Sorted rankLE (Part002.parseLeadsFromMarkdown g md kw)
    ∧ List.Sorted rankLE (Part000.parseLeadsFromMarkdown g md kw) := by
  constructor
  · unfold Part002.parseLeadsFromMarkdown
    split
    · simp
    · exact sorted_sortByRank _
  · unfold Part000.parseLeadsFromMarkdown
    split
    · simp
    · exact sorted_sortByRank _

/-- C3, counterexample: the `part_007` parser variant cited by the claim
falls back to `parseInt(...) || 0`, not to the row ordinal plus a base
offset, so a row whose rank cell has no digits produces a Lead with
rank 0 — not a positive integer. -/
theorem rank_zero_part007_cex :
    (Part007.parseLeadsFromMarkdown (fun _ => "") "| Acme | 555 | unknown | none | maps |" "kw").map
      Lead.rank = [0]
    ∧ ¬ (∀ l ∈ Part007.parseLeadsFromMarkdown (fun _ => "")
        "| Acme | 555 | unknown | none | maps |" "kw", 0 < l.rank) := by
  exact ⟨by decide, by decide⟩

/-- C3, amended: in the `geminiService.ts`, `part_000` and `part_002`
parser variants every produced Lead has a positive integer rank — the
digits of the rank cell when they denote a nonzero number, else the row
ordinal plus the variant's base offset (+6 or +1); the `part_007` variant
instead falls back to 0. -/
theorem rank_positive_amended (g : ℕ → String) (md kw : String) (l : Lead) :
    (l ∈ GeminiService.parseLeadsFromMarkdown g md kw → 0 < l.rank)
    ∧ (l ∈ Part000.parseLeadsFromMarkdown g md kw → 0 < l.rank)
    ∧ (l ∈ Part002.parseLeadsFromMarkdown g md kw → 0 < l.rank) := by
  refine ⟨?_, ?_, ?_⟩
  · intro h
    unfold GeminiService.parseLeadsFromMarkdown at h
    simp only [] at h
    split at h
    · simp at h
    · obtain ⟨p, _, hp⟩ := List.mem_filterMap.1 h
      exact GS_rank_pos hp
  · intro h
    unfold Part000.parseLeadsFromMarkdown at h
    split at h
    · simp at h
    · simp only [] at h
      rw [mem_sortByRank] at h
      obtain ⟨p, _, hp⟩ := List.mem_filterMap.1 h
      exact P0_rank_pos hp
  · intro h
    unfold Part002.parseLeadsFromMarkdown at h
    split at h
    · simp at h
    · simp only [] at h
      rw [mem_sortByRank] at h
      obtain ⟨p, _, hp⟩ := List.mem_filterMap.1 h
      exact P2_rank_pos hp

/-- C3, witness: the amended positivity theorem applied to a concrete
parse of a one-row table. -/
theorem rank_positive_amended_witness :
    gsAcmeLead ∈ GeminiService.parseLeadsFromMarkdown (fun _ => "")
      "|---|\n| Acme | 555 | 7 | site | maps |" "kw"
    ∧ 0 < gsAcmeLead.rank := by
  refine ⟨by decide, ?_⟩
  exact (rank_positive_amended (fun _ => "")
    "|---|\n| Acme | 555 | 7 | site | maps |" "kw" gsAcmeLead).1 (by decide)

/-- C1: for every error message carrying a quota indicator (`"429"`,
`"quota"`, or `"RESOURCE_EXHAUSTED"`), `part_002`'s `fetchGmbLeads` throws a
`QuotaError` whose `retryAfter` is the ceiling of the number captured by the
`retry in N s` pattern — 13 for a message containing `retry in 12.5s` — and
60 when the pattern is absent. -/
theorem fetch_quota_classification (msg : String) (h : quotaLike msg = true) :
    handleFetchError msg
      = ThrownError.quotaErr "System cooling down... please wait." (retryWaitSeconds msg)
    ∧ (findRetryCapture msg.data = none → retryWaitSeconds msg = some 60)
    ∧ (∀ (cap : List Char) (p : ℤ × ℕ), findRetryCapture msg.data = some cap →
        jsParseFloat cap = some p → retryWaitSeconds msg = some ⌈decVal p⌉)
    ∧ retryWaitSeconds "Error 429: please retry in 12.5s." = some 13 := by
  have hne : msg ≠ "" := by
    intro he
    rw [he] at h
    exact absurd h (by decide)
  refine ⟨?_, ?_, ?_, by decide⟩
  · unfold handleFetchError
    simp only []
    rw [if_neg hne, if_pos h]
  · intro hn
    unfold retryWaitSeconds
    rw [hn]
  · intro cap p hcap hp
    unfold retryWaitSeconds
    rw [hcap]
    simp [hp, ceilDec_eq_ceil]

/-- C1, witness: classification of a concrete 429 message with an embedded
`retry in 12.5s` hint. -/
theorem fetch_quota_classification_witness :
    quotaLike "Error 429: please retry in 12.5s." = true
    ∧ handleFetchError "Error 429: please retry in 12.5s."
      = ThrownError.quotaErr "System cooling down... please wait." (some 13) := by
  refine ⟨by decide, ?_⟩
  have h := fetch_quota_classification "Error 429: please retry in 12.5s." (by decide)
  rw [h.1, h.2.2.2]

/-- C6: text with no pipe character at all parses to the empty list (and no
error is raised — the parsers are total), in both the `geminiService.ts`
and the `part_000` variant. -/
theorem no_pipes_empty_result (g : ℕ → String) (md kw : String) (h : '|' ∉ md.data) :
    GeminiService.parseLeadsFromMarkdown g md kw = []
    ∧ Part000.parseLeadsFromMarkdown g md kw = [] := by
  constructor
  · unfold GeminiService.parseLeadsFromMarkdown
    simp only []
    have hf : (splitOnChar '\n' md.data).findIdx?
        (fun l => containsStr "|".data l && containsStr "---".data l) = none := by
      rw [List.findIdx?_eq_none_iff]
      intro line hline
      have hni : '|' ∉ line := fun hm =>
        h (mem_of_within (mem_splitOnChar_within hline) hm)
      cases hb : containsStr "|".data line with
      | true =>
        exact absurd (singleton_infix_iff.1 ((containsStr_iff _ _).1 hb)) hni
      | false => simp [hb]
    rw [hf]
  · unfold Part000.parseLeadsFromMarkdown
    split
    · rfl
    · simp only []
      have hfil : (splitOnChar '\n' md.data).filter (fun line =>
          5 ≤ countChar '|' line && !containsStr "---".data line
            && !containsStr "business name".data (lowerList line)) = [] := by
        rw [List.filter_eq_nil_iff]
        intro line hline
        have hni : '|' ∉ line := fun hm =>
          h (mem_of_within (mem_splitOnChar_within hline) hm)
        have hz : countChar '|' line = 0 := countChar_eq_zero hni
        simp [hz]
      rw [hfil]
      rfl

/-- C6, witness: a pipe-free text parses to the empty list. -/
theorem no_pipes_empty_result_witness :
    '|' ∉ ("the model returned prose with no table" : String).data
    ∧ GeminiService.parseLeadsFromMarkdown (fun _ => "")
        "the model returned prose with no table" "kw" = [] := by
  refine ⟨by decide, ?_⟩
  exact (no_pipes_empty_result (fun _ => "") "the model returned prose with no table" "kw"
    (by decide)).1

theorem merge_count_eq (prev incoming : List Lead) (nm : String)
    (h : 1 ≤ countByLowerName nm prev) :
    countByLowerName nm (mergeLeads prev incoming) = countByLowerName nm prev := by
  unfold mergeLeads countByLowerName
  simp only []
  rw [countP_sortByRank, List.countP_append]
  have hnm : nm ∈ prev.map lowerName := by
    have hpos : 0 < prev.countP (fun x => decide (lowerName x = nm)) := h
    obtain ⟨y, hy, hp⟩ := List.countP_pos_iff.1 hpos
    simp only [decide_eq_true_eq] at hp
    exact List.mem_map.2 ⟨y, hy, hp⟩
  have hz : (incoming.filter (fun l => !decide (lowerName l ∈ prev.map lowerName))).countP
      (fun x => decide (lowerName x = nm)) = 0 := by
    rw [List.countP_eq_zero]
    intro a ha
    rw [List.mem_filter] at ha
    simp only [Bool.not_eq_true', decide_eq_false_iff_not] at ha
    simp only [decide_eq_true_eq]
    intro heq
    exact ha.2 (heq ▸ hnm)
  rw [hz]
  omega

/-- C9, counterexample: the UI merge only filters an incoming batch against
the already-accumulated list, so a first batch that itself contains two
leads named (case-insensitively) "Acme Plumbing" leaves two occurrences in
the accumulated list even after a second search also returning that name —
not exactly one. -/
theorem merge_within_batch_dup_cex :
    countByLowerName "acme plumbing" [sampleLead "Acme Plumbing" 6 "1 km",
      sampleLead "ACME PLUMBING" 7 "2 km"] ≥ 1
    ∧ countByLowerName "acme plumbing" [sampleLead "Acme Plumbing" 8 "3 km"] ≥ 1
    ∧ countByLowerName "acme plumbing"
        (mergeLeads (mergeLeads [] [sampleLead "Acme Plumbing" 6 "1 km",
          sampleLead "ACME PLUMBING" 7 "2 km"]) [sampleLead "Acme Plumbing" 8 "3 km"]) = 2 := by
  exact ⟨by decide, by decide, by decide⟩

/-- C9, amended: merging a batch never adds a lead whose lowercased
business name is already accumulated (the occurrence count of any name
already present is unchanged), so two searches both containing
"Acme Plumbing" leave exactly one occurrence provided the first batch
contains exactly one lead with that name — the merge does not deduplicate
within a single batch. -/
theorem merge_dedup_amended :
    (∀ (prev incoming : List Lead) (nm : String), 1 ≤ countByLowerName nm prev →
      countByLowerName nm (mergeLeads prev incoming) = countByLowerName nm prev)
    ∧ (∀ (b₁ b₂ : List Lead) (nm : String), countByLowerName nm b₁ = 1 →
      countByLowerName nm (mergeLeads (mergeLeads [] b₁) b₂) = 1) := by
  refine ⟨merge_count_eq, ?_⟩
  intro b₁ b₂ nm h1
  have hm : mergeLeads [] b₁ = sortByRank b₁ := by
    unfold mergeLeads
    simp
  have hc : countByLowerName nm (sortByRank b₁) = 1 := by
    unfold countByLowerName
    rw [countP_sortByRank]
    exact h1
  rw [hm, merge_count_eq _ b₂ nm (by rw [hc]), hc]

/-- C9, witness: the amended merge theorem applied to two concrete
single-"Acme" batches. -/
theorem merge_dedup_amended_witness :
    countByLowerName "acme plumbing" [sampleLead "Acme Plumbing" 6 "1 km"] = 1
    ∧ countByLowerName "acme plumbing"
        (mergeLeads (mergeLeads [] [sampleLead "Acme Plumbing" 6 "1 km"])
          [sampleLead "Acme Plumbing" 8 "3 km", sampleLead "Beta" 9 "1 km"]) = 1 :=
  ⟨by decide, merge_dedup_amended.2 _ _ _ (by decide)⟩

/-- C2: in the radius-enforcing `part_002` variant the distance string is
canonicalized to kilometers — `km`-suffixed and unsuffixed values are taken
as-is, `m`-suffixed values are divided by 1000 (`"350 m"` gives 0.35,
`"1.2 km"` gives 1.2, `"5"` gives 5) — and a lead is kept iff its canonical
distance is at most `1.05 × radius`; at radius 10, 10.4 is kept and 11 is
dropped. -/
theorem radius_filter_spec :
    (∀ (radius : ℚ) (leads : List Lead) (l : Lead),
      l ∈ enforceRadius radius leads
        ↔ l ∈ leads ∧ parseDistanceValue l.distance ≤ radius * 1.05)
    ∧ (∀ (s : String) (p : ℤ × ℕ), s ≠ "" → jsParseFloat (cleanDistStr s) = some p →
        "km".data.isSuffixOf (cleanDistStr s) = true → parseDistanceValue s = decVal p)
    ∧ (∀ (s : String) (p : ℤ × ℕ), s ≠ "" → jsParseFloat (cleanDistStr s) = some p →
        "km".data.isSuffixOf (cleanDistStr s) = false →
        "m".data.isSuffixOf (cleanDistStr s) = true →
        parseDistanceValue s = decVal p / 1000)
    ∧ (∀ (s : String) (p : ℤ × ℕ), s ≠ "" → jsParseFloat (cleanDistStr s) = some p →
        "km".data.isSuffixOf (cleanDistStr s) = false →
        "m".data.isSuffixOf (cleanDistStr s) = false → parseDistanceValue s = decVal p)
    ∧ parseDistanceValue "350 m" = 0.35
    ∧ parseDistanceValue "1.2 km" = 1.2
    ∧ parseDistanceValue "5" = 5
    ∧ enforceRadius 10 [sampleLead "A" 6 "10.4 km", sampleLead "B" 7 "11 km"]
        = [sampleLead "A" 6 "10.4 km"] := by
  have hkmcase : ∀ (s : String) (p : ℤ × ℕ), s ≠ "" → jsParseFloat (cleanDistStr s) = some p →
      "km".data.isSuffixOf (cleanDistStr s) = true → parseDistanceValue s = decVal p := by
    intro s p hs hp hkm
    simp only [parseDistanceValue, if_neg hs, hp, hkm, if_pos]
  have hmcase : ∀ (s : String) (p : ℤ × ℕ), s ≠ "" → jsParseFloat (cleanDistStr s) = some p →
      "km".data.isSuffixOf (cleanDistStr s) = false →
      "m".data.isSuffixOf (cleanDistStr s) = true →
      parseDistanceValue s = decVal p / 1000 := by
    intro s p hs hp hkm hm
    simp only [parseDistanceValue, if_neg hs, hp, hkm, hm, Bool.false_eq_true, if_false, if_pos]
  have hplain : ∀ (s : String) (p : ℤ × ℕ), s ≠ "" → jsParseFloat (cleanDistStr s) = some p →
      "km".data.isSuffixOf (cleanDistStr s) = false →
      "m".data.isSuffixOf (cleanDistStr s) = false → parseDistanceValue s = decVal p := by
    intro s p hs hp hkm hm
    simp only [parseDistanceValue, if_neg hs, hp, hkm, hm, Bool.false_eq_true, if_false]
  have e350 : parseDistanceValue "350 m" = 0.35 := by
    rw [hmcase "350 m" (350, 0) (by decide) (by decide) (by decide) (by decide)]
    norm_num [decVal]
  have e12 : parseDistanceValue "1.2 km" = 1.2 := by
    rw [hkmcase "1.2 km" (12, 1) (by decide) (by decide) (by decide)]
    norm_num [decVal]
  have e5 : parseDistanceValue "5" = 5 := by
    rw [hplain "5" (5, 0) (by decide) (by decide) (by decide) (by decide)]
    norm_num [decVal]
  have e104 : parseDistanceValue "10.4 km" = 10.4 := by
    rw [hkmcase "10.4 km" (104, 1) (by decide) (by decide) (by decide)]
    norm_num [decVal]
  have e11 : parseDistanceValue "11 km" = 11 := by
    rw [hkmcase "11 km" (11, 0) (by decide) (by decide) (by decide)]
    norm_num [decVal]
  refine ⟨?_, hkmcase, hmcase, hplain, e350, e12, e5, ?_⟩
  · intro radius leads l
    unfold enforceRadius
    rw [List.mem_filter]
    simp
  · unfold enforceRadius
    rw [List.filter_cons, List.filter_cons, List.filter_nil]
    have d1 : decide (parseDistanceValue (sampleLead "A" 6 "10.4 km").distance
        ≤ (10 : ℚ) * 1.05) = true := by
      rw [decide_eq_true_eq]
      have : (sampleLead "A" 6 "10.4 km").distance = "10.4 km" := rfl
      rw [this, e104]
      norm_num
    have d2 : decide (parseDistanceValue (sampleLead "B" 7 "11 km").distance
        ≤ (10 : ℚ) * 1.05) = false := by
      rw [decide_eq_false_iff_not]
      have : (sampleLead "B" 7 "11 km").distance = "11 km" := rfl
      rw [this, e11]
      norm_num
    rw [d1, d2]
    simp

/-- C2, witness: the suffix rules applied to the three concrete distance
strings of the specification. -/
theorem radius_filter_spec_witness :
    parseDistanceValue "350 m" = decVal (350, 0) / 1000
    ∧ parseDistanceValue "1.2 km" = decVal (12, 1)
    ∧ parseDistanceValue "5" = decVal (5, 0) :=
  ⟨radius_filter_spec.2.2.1 "350 m" (350, 0) (by decide) (by decide) (by decide) (by decide),
   radius_filter_spec.2.1 "1.2 km" (12, 1) (by decide) (by decide) (by decide),
   radius_filter_spec.2.2.2.1 "5" (5, 0) (by decide) (by decide) (by decide) (by decide)⟩

/-- C10: a distance string with no leading numeric value canonicalizes to 0
(`parseFloat` is `NaN`), and a zero canonical distance always passes the
radius filter for every positive radius — malformed distances are never
dropped by radius enforcement. -/
theorem malformed_distance_passes_filter (radius : ℚ) (leads : List Lead) (l : Lead)
    (hr : 0 < radius) :
    (∀ s : String, jsParseFloat (cleanDistStr s) = none → parseDistanceValue s = 0)
    ∧ (l ∈ leads → parseDistanceValue l.distance = 0 → l ∈ enforceRadius radius leads)
    ∧ parseDistanceValue "N/A" = 0
    ∧ parseDistanceValue "" = 0 := by
  refine ⟨?_, ?_, by decide, by decide⟩
  · intro s hn
    by_cases hs : s = ""
    · rw [hs]
      decide
    · simp only [parseDistanceValue, if_neg hs, hn]
  · intro hmem hzero
    unfold enforceRadius
    rw [List.mem_filter]
    refine ⟨hmem, ?_⟩
    rw [decide_eq_true_eq, hzero]
    have h105 : (0 : ℚ) < 1.05 := by norm_num
    nlinarith

/-- C10, witness: a lead whose distance is the sentinel `"N/A"` survives the
radius filter at radius 10. -/
theorem malformed_distance_passes_filter_witness :
    (0 : ℚ) < 10
    ∧ sampleLead "A" 6 "N/A" ∈ enforceRadius 10 [sampleLead "A" 6 "N/A"] := by
  refine ⟨by decide, ?_⟩
  exact (malformed_distance_passes_filter 10 [sampleLead "A" 6 "N/A"] (sampleLead "A" 6 "N/A")
    (by decide)).2.1 (by decide) (by decide)

theorem P0_row_some (g : ℕ → String) (kw : String) (i : ℕ) (row : List Char)
    (hlen : 5 ≤ (partsOfRow row).length)
    (hname : 2 ≤ (stripBackquotes (stripDoubleStars ((partsOfRow row).getD 0 []))).length) :
    Part000.rowToLead g kw i row = some
      { id := g i
        businessName := String.mk (stripBackquotes (stripDoubleStars ((partsOfRow row).getD 0 [])))
        phoneNumber := String.mk (jsOr ((partsOfRow row).getD 1 []) "N/A".data)
        rank := jsOrNat (jsParseInt (digitsOnly ((partsOfRow row).getD 2 []))) (i + 1)
        website := String.mk (jsOr ((partsOfRow row).getD 3 []) "None".data)
        locationLink := String.mk (jsOr ((partsOfRow row).getD 4 []) "#".data)
        rating := ratingOf ((partsOfRow row).getD 5 [])
        distance := String.mk (jsOr ((partsOfRow row).getD 6 []) "0 km".data)
        keyword := kw } := by
  unfold Part000.rowToLead
  simp only []
  rw [if_pos hlen, if_neg (by omega)]

/-- C4, counterexample: a well-formed row with 5 cells whose first cell is
the ordinary (non-empty, non-header, non-separator) name `"A"` produces no
Lead at all in the `part_000` parser — its cleaned-name length check drops
every name shorter than 2 characters. -/
theorem short_name_dropped_cex :
    5 ≤ (partsOfRow "| A | 555 | 7 | site | maps |".data).length
    ∧ (partsOfRow "| A | 555 | 7 | site | maps |".data).getD 0 [] = ['A']
    ∧ Part000.parseLeadsFromMarkdown (fun _ => "") "| A | 555 | 7 | site | maps |" "kw" = [] := by
  exact ⟨by decide, by decide, by decide⟩

/-- C4, amended: in the `part_000` variant, every well-formed pipe-delimited
row with at least 5 cells — provided its business-name cell, after
stripping the bold/code markers, has at least 2 characters — produces
exactly one Lead whose `businessName` is the first cell with the markers
stripped, and that name is non-empty; rows whose cleaned name is shorter
than 2 characters (in particular 1-character names) are dropped. -/
theorem businessName_from_first_cell_amended (g : ℕ → String) (kw : String) (row : List Char)
    (hnl : '\n' ∉ row)
    (hpipes : 5 ≤ countChar '|' row)
    (hsep : containsStr "---".data row = false)
    (hhdr : containsStr "business name".data (lowerList row) = false)
    (hlen : 5 ≤ (partsOfRow row).length)
    (hname : 2 ≤ (stripBackquotes (stripDoubleStars ((partsOfRow row).getD 0 []))).length) :
    (Part000.parseLeadsFromMarkdown g (String.mk row) kw).map Lead.businessName
      = [String.mk (stripBackquotes (stripDoubleStars ((partsOfRow row).getD 0 [])))]
    ∧ String.mk (stripBackquotes (stripDoubleStars ((partsOfRow row).getD 0 []))) ≠ "" := by
  have hrow : row ≠ [] := by
    intro he
    rw [he] at hpipes
    simp [countChar] at hpipes
  have hmd : (String.mk row) ≠ "" := fun he => hrow (congrArg String.data he)
  constructor
  · unfold Part000.parseLeadsFromMarkdown
    rw [if_neg hmd]
    simp only []
    rw [splitOnChar_single hnl]
    have hfil : List.filter (fun line =>
        decide (5 ≤ countChar '|' line) && !containsStr ['-', '-', '-'] line
          && !containsStr ['b', 'u', 's', 'i', 'n', 'e', 's', 's', ' ', 'n', 'a', 'm', 'e']
            (lowerList line)) [row] = [row] := by
      have h1 : decide (5 ≤ countChar '|' row) = true := decide_eq_true hpipes
      have h2 : containsStr ['-', '-', '-'] row = false := hsep
      have h3 : containsStr ['b', 'u', 's', 'i', 'n', 'e', 's', 's', ' ', 'n', 'a', 'm', 'e']
          (lowerList row) = false := hhdr
      simp [h1, h2, h3]
    rw [hfil, show ([row].enum) = [(0, row)] from rfl]
    rw [List.filterMap_cons]
    simp only [P0_row_some g kw 0 row hlen hname, List.filterMap_nil]
    rfl
  · intro he
    have h0 : stripBackquotes (stripDoubleStars ((partsOfRow row).getD 0 [])) = ([] : List Char) :=
      congrArg String.data he
    rw [h0] at hname
    simp at hname

/-- C4, witness: the amended theorem applied to a concrete bolded row. -/
theorem businessName_from_first_cell_amended_witness :
    (Part000.parseLeadsFromMarkdown (fun _ => "")
      "| **Acme Plumbing** | 555 | 7 | site | maps |" "kw").map Lead.businessName
      = ["Acme Plumbing"] := by
  have h := businessName_from_first_cell_amended (fun _ => "") "kw"
    "| **Acme Plumbing** | 555 | 7 | site | maps |".data
    (by decide) (by decide) (by decide) (by decide) (by decide) (by decide)
  rw [show String.mk "| **Acme Plumbing** | 555 | 7 | site | maps |".data
    = "| **Acme Plumbing** | 555 | 7 | site | maps |" from rfl] at h
  rw [h.1]
  decide

theorem GS_row_none {g : ℕ → String} {kw : String} {i : ℕ} {row : List Char}
    (hbad : badFirstCell ((partsOfRow (trimList row)).getD 0 [])) :
    GeminiService.rowToLead g kw i row = none := by
  unfold GeminiService.rowToLead
  simp only []
  split
  · rfl
  · split
    · split
      · rfl
      · rename_i hnotbad
        exfalso
        apply hnotbad
        rcases hbad with hcell | hcell | hcell
        · rw [hcell]
          decide
        · have hx : containsStr ['n', 'a', 'm', 'e']
              (lowerList ((partsOfRow (trimList row)).getD 0 [])) = true := by
            rw [hcell]
            decide
          rw [hx]
          simp
        · have hx : containsStr ['-', '-', '-'] ((partsOfRow (trimList row)).getD 0 [])
              = true := hcell
          rw [hx]
          simp
    · rfl

theorem P0_row_none {g : ℕ → String} {kw : String} {i : ℕ} {row : List Char}
    (hbad : badFirstCell ((partsOfRow row).getD 0 []))
    (hsep : containsStr "---".data row = false)
    (hhdr : containsStr "business name".data (lowerList row) = false) :
    Part000.rowToLead g kw i row = none := by
  unfold Part000.rowToLead
  simp only []
  split
  · rename_i hlen
    split
    · rfl
    · rename_i hshort
      exfalso
      have hne : partsOfRow row ≠ [] := by
        intro h0
        rw [h0] at hlen
        simp at hlen
      rcases hbad with hcell | hcell | hcell
      · exact hshort (by rw [hcell]; decide)
      · have hinf := infix_lowerList (firstCell_within hne)
        rw [hcell] at hinf
        have hc := (containsStr_iff "business name".data (lowerList row)).2 hinf
        rw [hhdr] at hc
        exact absurd hc (by simp)
      · have hinf := (containsStr_iff "---".data _).1 hcell
        have h2 : "---".data <:+: row := hinf.trans (firstCell_within hne)
        have hc := (containsStr_iff "---".data row).2 h2
        rw [hsep] at hc
        exact absurd hc (by simp)
  · rfl

/-- C5: an input line whose first cell (after pipe-splitting and trimming)
is empty, is the header label `business name` (up to case), or contains a
dash-separator run, is never emitted as a Lead — in the `geminiService.ts`
parser (fed after a separator line) and in the `part_000` parser. -/
theorem header_separator_rows_skipped (g : ℕ → String) (kw : String) (row : List Char)
    (hnl : '\n' ∉ row) :
    (badFirstCell ((partsOfRow (trimList row)).getD 0 []) →
      GeminiService.parseLeadsFromMarkdown g (String.mk ("|---|".data ++ '\n' :: row)) kw = [])
    ∧ (badFirstCell ((partsOfRow row).getD 0 []) →
      Part000.parseLeadsFromMarkdown g (String.mk row) kw = []) := by
  constructor
  · intro hbad
    unfold GeminiService.parseLeadsFromMarkdown
    simp only []
    have hsplit : splitOnChar '\n' (['|', '-', '-', '-', '|'] ++ '\n' :: row)
        = ['|', '-', '-', '-', '|'] :: splitOnChar '\n' row :=
      splitOnChar_no_sep_append row (by decide)
    rw [hsplit, splitOnChar_single hnl]
    have hfind : (["|---|".data, row]).findIdx?
        (fun l => containsStr ['|'] l && containsStr ['-', '-', '-'] l) = some 0 := by
      rw [List.findIdx?_cons]
      simp only [if_pos (show (containsStr ['|'] ['|', '-', '-', '-', '|']
        && containsStr ['-', '-', '-'] ['|', '-', '-', '-', '|']) = true from by decide)]
    rw [hfind]
    simp only [List.drop_succ_cons, List.drop_zero]
    rw [show ([row].enum) = [(0, row)] from rfl]
    rw [List.filterMap_cons]
    simp only [GS_row_none hbad, List.filterMap_nil]
  · intro hbad
    by_cases hmd : (String.mk row) = ""
    · rw [hmd]
      rfl
    · unfold Part000.parseLeadsFromMarkdown
      rw [if_neg hmd]
      simp only []
      rw [splitOnChar_single hnl]
      cases hP : (decide (5 ≤ countChar '|' row) && !containsStr ['-', '-', '-'] row
          && !containsStr ['b', 'u', 's', 'i', 'n', 'e', 's', 's', ' ', 'n', 'a', 'm', 'e']
            (lowerList row)) with
      | true =>
        have hparts := hP
        simp only [Bool.and_eq_true, Bool.not_eq_true', decide_eq_true_eq] at hparts
        have hfil : List.filter (fun line =>
            decide (5 ≤ countChar '|' line) && !containsStr ['-', '-', '-'] line
              && !containsStr ['b', 'u', 's', 'i', 'n', 'e', 's', 's', ' ', 'n', 'a', 'm', 'e']
                (lowerList line)) [row] = [row] := by
          simp [hP]
        rw [hfil, show ([row].enum) = [(0, row)] from rfl]
        rw [List.filterMap_cons]
        simp only [P0_row_none hbad hparts.1.2 hparts.2, List.filterMap_nil]
        rfl
      | false =>
        have hfil : List.filter (fun line =>
            decide (5 ≤ countChar '|' line) && !containsStr ['-', '-', '-'] line
              && !containsStr ['b', 'u', 's', 'i', 'n', 'e', 's', 's', ' ', 'n', 'a', 'm', 'e']
                (lowerList line)) [row] = [] := by
          simp [hP]
        rw [hfil]
        rfl

/-- C5, witness: a repeated header row is dropped by the `geminiService.ts`
parser. -/
theorem header_separator_rows_skipped_witness :
    badFirstCell ((partsOfRow
      (trimList "| Business Name | Phone | Rank | Website | Maps |".data)).getD 0 [])
    ∧ GeminiService.parseLeadsFromMarkdown (fun _ => "")
        (String.mk ("|---|".data ++ '\n'
          :: "| Business Name | Phone | Rank | Website | Maps |".data)) "kw" = [] := by
  refine ⟨by decide, ?_⟩
  exact (header_separator_rows_skipped (fun _ => "") "kw"
    "| Business Name | Phone | Rank | Website | Maps |".data (by decide)).1 (by decide)
